import Mathlib

/-!
# Verification of the csv_zip_router routing engine

Shallow embedding of `src/csv_zip_router.py` and proofs about it.

Modelling conventions:
* A filesystem path is a pair `(directory, filename)`; directories are opaque
  strings compared atomically.  This matches how the program builds every path
  it touches: `dest_dir / name`, `staging_dir / name`, etc.  Filenames produced
  by the program never contain a path separator (they come from
  `Path(member).name`), so the pair representation is faithful.
* The filesystem state is a finite association list of files (path to content)
  plus a list of existing directories.  `mkdir`, `unlink`, `shutil.move`,
  `shutil.copy2` and `open(..., "wb")` are modelled as the obvious pure
  operations on this state.
* `fnmatch.fnmatch` (POSIX behaviour: no case normalisation) is embedded as a
  recursive glob matcher supporting `*`, `?` and `[...]` classes, following
  CPython's `fnmatch.translate` semantics.
* The thread pool in `main` is modelled as sequential per-archive processing;
  the claims settled here (exit codes, dry-run mutation) do not depend on the
  interleaving.
-/

namespace CsvZipRouter

instance {ε α : Type} [DecidableEq ε] [DecidableEq α] : DecidableEq (Except ε α)
  | .ok a, .ok b =>
    if h : a = b then .isTrue (by rw [h]) else .isFalse (by simp [h])
  | .ok _, .error _ => .isFalse (by simp)
  | .error _, .ok _ => .isFalse (by simp)
  | .error e, .error f =>
    if h : e = f then .isTrue (by rw [h]) else .isFalse (by simp [h])

/-! ## String and path helpers (pathlib `Path.name` / `.stem` / `.suffix`) -/

/-- Python `str.lower()` (character-wise). -/
def strToLower (s : String) : String :=
  String.mk (s.data.map Char.toLower)

/-- Splits a reversed character list at the first `.` (i.e. the last `.` of the
original name).  Returns `(reversed extension chars, reversed stem chars)`. -/
def rsplitDot : List Char → Option (List Char × List Char)
  | [] => none
  | '.' :: rest => some ([], rest)
  | c :: rest => (rsplitDot rest).map (fun pr => (c :: pr.1, pr.2))

/-- `pathlib` `stem`/`suffix` of a bare filename: the suffix is the part from
the last dot on, unless the dot is the first or the last character of the
name (then there is no suffix). -/
def splitExt (n : String) : String × String :=
  match rsplitDot n.data.reverse with
  | none => (n, "")
  | some (extRev, stemRev) =>
    if stemRev = [] then (n, "")
    else if extRev = [] then (n, "")
    else (String.mk stemRev.reverse, String.mk ('.' :: extRev.reverse))

/-- `pathlib` `Path(p).name`: the last `/`-separated component.  (Archive
member names handed to it never end in `/`: they end in `.csv`.) -/
def pathName (p : String) : String :=
  String.mk ((p.data.reverse.takeWhile (fun c => decide (c ≠ '/'))).reverse)

/-- Python `needle in haystack` on strings. -/
def strContains (haystack needle : String) : Bool :=
  decide (needle.data <:+: haystack.data)

/-! ## Filesystem model -/

/-- A file path: (directory, filename). -/
abbrev FPath := String × String

/-- Filesystem state: files (path to content) and directories. -/
structure FS where
  files : List (FPath × String)
  dirs : List String
deriving DecidableEq, Repr

def FS.existsFile (fs : FS) (p : FPath) : Bool :=
  fs.files.any (fun e => decide (e.1 = p))

def FS.read (fs : FS) (p : FPath) : Option String :=
  (fs.files.find? (fun e => decide (e.1 = p))).map (fun e => e.2)

/-- `Path.unlink(missing_ok=True)`: removes the file if present. -/
def FS.unlink (fs : FS) (p : FPath) : FS :=
  { fs with files := fs.files.filter (fun e => decide (e.1 ≠ p)) }

/-- `open(p, "wb")` followed by writing `c`: creates or truncates the file. -/
def FS.write (fs : FS) (p : FPath) (c : String) : FS :=
  { fs with files := (p, c) :: (fs.unlink p).files }

/-- `Path.mkdir(parents=True, exist_ok=True)`. -/
def FS.mkdir (fs : FS) (d : String) : FS :=
  { fs with dirs := if fs.dirs.contains d then fs.dirs else d :: fs.dirs }

/-- A directory exists if it was created explicitly or holds a file. -/
def FS.dirExists (fs : FS) (d : String) : Bool :=
  fs.dirs.contains d || fs.files.any (fun e => decide (e.1.1 = d))

/-- `shutil.move(src, dst)` for files: fails if `src` is missing, otherwise
removes `src` and (re)creates `dst` with the source content. -/
def FS.move (fs : FS) (src dst : FPath) : Option FS :=
  match fs.read src with
  | none => none
  | some c => some ((fs.unlink src).write dst c)

/-! ## Month logic utilities (lines 51-91 of the source) -/

def MONTHS : List String :=
  ["Jan", "Feb", "Mar", "Apr", "May", "Jun", "Jul", "Aug", "Sep", "Oct", "Nov", "Dec"]

/-- `get_next_month`: next month in the cycle, `Dec -> Jan`; unknown input
falls back to `"Jan"`. (The `getD` default is never used: a found index is
always `< 12`.) -/
def get_next_month (current_month : String) : String :=
  match MONTHS.findIdx? (fun m => decide (m = current_month)) with
  | some current_index => MONTHS.getD ((current_index + 1) % 12) "Jan"
  | none => "Jan"

/-- Code-point lexicographic comparison of char lists: Python's `str` `<`. -/
def charListLt : List Char → List Char → Bool
  | [], [] => false
  | [], _ :: _ => true
  | _ :: _, [] => false
  | a :: as, b :: bs =>
    if a < b then true
    else if b < a then false
    else charListLt as bs

/-- Python `a < b` on strings. -/
def strLt (a b : String) : Bool :=
  charListLt a.data b.data

/-- Python `max(a, b)`-style fold step on strings (lexicographic by code
point, keeping the accumulator on ties). -/
def pyMax (a b : String) : String :=
  if strLt a b then b else a

/-- The month labels collected by the directory scan of
`find_latest_month_in_destination`: files of `dest_dir` whose suffix lowers to
`.csv` and whose name matches the anchored regex
`^<base>_(Jan|...|Dec)\.csv$`. -/
def foundMonths (fs : FS) (dest_dir : String) (base_filename : String) : List String :=
  (fs.files.filter
      (fun e => decide (e.1.1 = dest_dir) &&
        decide (strToLower (splitExt e.1.2).2 = ".csv"))).filterMap
    (fun e => MONTHS.find? (fun m => decide (e.1.2 = base_filename ++ "_" ++ m ++ ".csv")))

/-- `find_latest_month_in_destination`: `max` of the matching labels, `None`
if the directory does not exist or no file matches. -/
def find_latest_month_in_destination (fs : FS) (dest_dir : String)
    (base_filename : String) : Option String :=
  if fs.dirExists dest_dir then
    match foundMonths fs dest_dir base_filename with
    | [] => none
    | m :: rest => some (rest.foldl pyMax m)
  else none

/-- `add_month_suffix_to_filename`: insert `_<month>` before the extension. -/
def add_month_suffix_to_filename (filename month : String) : String :=
  (splitExt filename).1 ++ "_" ++ month ++ (splitExt filename).2

/-- The month-suffix derivation inlined twice in `extract_and_route_zip`
(lines 286-297 and 253-260): successor of the latest found month, or the
hard-coded `"Sep"` fallback when nothing is found. -/
def nextLabel (fs : FS) (dest_dir : String) (base_filename : String) : String :=
  match find_latest_month_in_destination fs dest_dir base_filename with
  | some latest_month => get_next_month latest_month
  | none => "Sep"

/-! ## Glob matching (`fnmatch.fnmatch`, POSIX: no case normalisation)

The source delegates to Python's `fnmatch`; the embedding below follows the
semantics of `fnmatch.translate`: `*` matches any run of characters, `?` one
character, `[...]` a character class (with `!` negation, ranges, a literal
`]` first, and an unterminated `[` matched literally). -/

/-- Scan a bracket-class body up to the closing `]`.
Returns `(class chars, rest of the pattern)`, or `none` if unterminated. -/
def scanClose : List Char → Option (List Char × List Char)
  | [] => none
  | c :: rest =>
    if c = ']' then some ([], rest)
    else (scanClose rest).map (fun pr => (c :: pr.1, pr.2))

theorem scanClose_length {l : List Char} {pr : List Char × List Char}
    (h : scanClose l = some pr) : pr.2.length < l.length := by
  induction l generalizing pr with
  | nil => simp [scanClose] at h
  | cons c rest ih =>
    rw [scanClose] at h
    split at h
    · injection h with h'
      simp [← h']
    · simp only [Option.map_eq_some'] at h
      obtain ⟨a, ha, hpr⟩ := h
      have := ih ha
      simp only [← hpr]
      simp only [List.length_cons]
      omega

/-- Consume an optional leading `!` (class negation). -/
def stripNeg (ps : List Char) : Bool × List Char :=
  match ps with
  | [] => (false, [])
  | c :: rest => if c = '!' then (true, rest) else (false, c :: rest)

/-- A `]` right at the start of the class body is a literal class member. -/
def stripLead (ps : List Char) : List Char × List Char :=
  match ps with
  | [] => ([], [])
  | c :: rest => if c = ']' then ([']'], rest) else ([], c :: rest)

/-- Parse the part of a glob pattern following `[`: optional `!` negation, a
literal `]` taken as the first class member, then the class body.  Returns
`(negated, class chars, rest of the pattern)`; `none` if unterminated. -/
def parseBracket (ps : List Char) : Option (Bool × List Char × List Char) :=
  let n := stripNeg ps
  let l := stripLead n.2
  (scanClose l.2).map (fun pr => (n.1, l.1 ++ pr.1, pr.2))

theorem stripNeg_length (ps : List Char) : (stripNeg ps).2.length ≤ ps.length := by
  cases ps with
  | nil => simp [stripNeg]
  | cons c rest => by_cases hc : c = '!' <;> simp [stripNeg, hc]

theorem stripLead_length (ps : List Char) : (stripLead ps).2.length ≤ ps.length := by
  cases ps with
  | nil => simp [stripLead]
  | cons c rest => by_cases hc : c = ']' <;> simp [stripLead, hc]

theorem parseBracket_length {ps : List Char} {r : Bool × List Char × List Char}
    (h : parseBracket ps = some r) : r.2.2.length < ps.length := by
  rw [parseBracket] at h
  simp only [Option.map_eq_some'] at h
  obtain ⟨a, ha, hr⟩ := h
  have h1 := scanClose_length ha
  have h2 := stripLead_length (stripNeg ps).2
  have h3 := stripNeg_length ps
  simp only [← hr]
  omega

/-- Membership of a character in a bracket-class body, with `a-b` ranges
(a hyphen that cannot start a range is a literal member). -/
def classMatchBody : List Char → Char → Bool
  | a :: '-' :: b :: rest, c => (a ≤ c && c ≤ b) || classMatchBody rest c
  | a :: rest, c => decide (a = c) || classMatchBody rest c
  | [], _ => false

/-- Class membership; a leading hyphen is always literal. -/
def classMatchStart (cls : List Char) (c : Char) : Bool :=
  match cls with
  | '-' :: rest => decide (c = '-') || classMatchBody rest c
  | _ => classMatchBody cls c

/-- The glob matcher, fuelled so that it is structurally recursive (and hence
evaluates by kernel reduction).  Every recursive call shrinks
`pattern.length + name.length`, so fuel `> pattern.length + name.length`
never runs out; the `0` case is unreachable from `globMatch`. -/
def globMatchF : Nat → List Char → List Char → Bool
  | 0, _, _ => false
  | _ + 1, [], s => s.isEmpty
  | fuel + 1, '*' :: ps, s =>
    globMatchF fuel ps s ||
      (match s with
       | [] => false
       | _ :: cs => globMatchF fuel ('*' :: ps) cs)
  | fuel + 1, '?' :: ps, s =>
    (match s with
     | [] => false
     | _ :: cs => globMatchF fuel ps cs)
  | fuel + 1, p :: ps, s =>
    if p = '[' then
      match parseBracket ps with
      | some r =>
        (match s with
         | [] => false
         | c :: cs => (r.1 != classMatchStart r.2.1 c) && globMatchF fuel r.2.2 cs)
      | none =>
        (match s with
         | [] => false
         | c :: cs => decide (c = '[') && globMatchF fuel ps cs)
    else
      (match s with
       | [] => false
       | c :: cs => decide (c = p) && globMatchF fuel ps cs)

/-- The glob matcher: `globMatch pattern name`. -/
def globMatch (p s : List Char) : Bool :=
  globMatchF (p.length + s.length + 1) p s

/-- `fnmatch.fnmatch(name, pattern)` on a POSIX system. -/
def fnmatch (name : String) (pat : String) : Bool :=
  globMatch pat.data name.data

/-! ## Mapping rules and route resolution (lines 143-163) -/

/-- One mapping entry: `{"pattern": ..., "dest": ...}`. -/
structure Rule where
  pattern : String
  dest : String
deriving DecidableEq, Repr

/-- The `for rule in mapping` loop of `resolve_destinations`: append the
destination of every rule whose pattern matches the name. -/
def matchLoop (csv_name : String) : List Rule → List String
  | [] => []
  | r :: rs =>
    if fnmatch csv_name r.pattern then r.dest :: matchLoop csv_name rs
    else matchLoop csv_name rs

/-- `resolve_destinations`: all matching destinations, falling back to the
default destination (if configured) when nothing matched. -/
def resolve_destinations (csv_name : String) (mapping : List Rule)
    (default_dest : Option String) : List String :=
  let destinations := matchLoop csv_name mapping
  if destinations.isEmpty then
    match default_dest with
    | some d => [d]
    | none => []
  else destinations

/-! ## Conflict-safe writer (`safe_write`, lines 168-204) -/

/-- The `while True` probe of the `rename` policy: the first counter `≥ 1`
whose candidate name is unused.  The Python loop is unbounded; here it gets
`fs.files.length + 1` units of fuel, which is enough because the candidate
names for distinct counters are distinct paths. -/
def probe_rename (fs : FS) (dest_dir stem suffix : String) :
    Nat → Nat → Option String
  | 0, _ => none
  | fuel + 1, counter =>
    let candidate := stem ++ "_" ++ toString counter ++ suffix
    if fs.existsFile (dest_dir, candidate) then
      probe_rename fs dest_dir stem suffix fuel (counter + 1)
    else some candidate

/-- Python `dest_filename or src_tmp.name`: `or` falls through on a falsy
value, i.e. on `None` and on the empty string. -/
def orName (dest_filename : Option String) (nm : String) : String :=
  match dest_filename with
  | some s => if s = "" then nm else s
  | none => nm

/-- `safe_write(src_tmp, dest_dir, on_conflict, dest_filename)`.  Returns the
filesystem after the call together with either the final path or the raised
exception.  A raised exception leaves the mutations made before the raise in
place, exactly as in the source. -/
def safe_write (fs : FS) (src_tmp : FPath) (dest_dir : String)
    (on_conflict : String) (dest_filename : Option String) :
    FS × Except String FPath :=
  let fs1 := fs.mkdir dest_dir
  let target : FPath := (dest_dir, orName dest_filename src_tmp.2)
  if fs1.existsFile target then
    if on_conflict = "overwrite" then
      match (fs1.unlink target).move src_tmp target with
      | some fs2 => (fs2, .ok target)
      | none => (fs1.unlink target, .error "move: no such file")
    else if on_conflict = "skip" then
      (fs1.unlink src_tmp, .ok target)
    else if on_conflict = "rename" then
      let stem := (splitExt target.2).1
      let suffix := (splitExt target.2).2
      match probe_rename fs1 dest_dir stem suffix (fs1.files.length + 1) 1 with
      | some candidate =>
        match fs1.move src_tmp (dest_dir, candidate) with
        | some fs2 => (fs2, .ok (dest_dir, candidate))
        | none => (fs1, .error "move: no such file")
      | none => (fs1, .error "rename probe out of fuel")
    else
      (fs1.unlink src_tmp, .error ("Unknown on_conflict strategy: " ++ on_conflict))
  else
    match fs1.move src_tmp target with
    | some fs2 => (fs2, .ok target)
    | none => (fs1, .error "move: no such file")

/-! ## Archive extraction and routing (`extract_and_route_zip`, lines 207-320) -/

/-- One archive: its path (as directory, filename), whether `zipfile.is_zipfile`
accepts it, and its member list (member path inside the archive, content). -/
structure ZipFile where
  zdir : String
  zname : String
  valid : Bool
  members : List (String × String)
deriving DecidableEq, Repr

def ZipFile.zid (z : ZipFile) : FPath := (z.zdir, z.zname)

/-- One `(zip_path, final_csv_path_or_None_if_skipped)` entry. -/
abbrev Outcome := FPath × Option FPath

/-- Member selection: `m.lower().endswith(".csv")`. -/
def member_selected (m : String) : Bool :=
  decide (".csv".data <:+ (strToLower m).data)

/-- The per-destination output name (lines 279-297 and 251-260): the month
suffix is added only for the `BASE_RISTOURNABLE` family routed into a
destination whose path mentions `P&L`. -/
def route_filename (fs : FS) (dest_dir : String) (modified_name : String) : String :=
  if strContains modified_name "BASE_RISTOURNABLE" && strContains dest_dir "P&L" then
    add_month_suffix_to_filename modified_name
      (nextLabel fs dest_dir (splitExt modified_name).1)
  else modified_name

/-- The `for i, dest_dir in enumerate(dest_dirs)` loop of the real (non
dry-run) branch: stage a per-destination copy, hand it to `safe_write`,
remember the temp files created.  Returns the filesystem, the temp files, and
the outcomes or the first raised error. -/
def destLoop (zid : FPath) (staging modified_name on_conflict : String) :
    FS → List String → Nat → FS × List FPath × Except String (List Outcome)
  | fs, [], _ => (fs, [], .ok [])
  | fs, dest_dir :: rest, i =>
    let current_filename := route_filename fs dest_dir modified_name
    let temp : FPath :=
      if current_filename ≠ modified_name then (staging, current_filename)
      else (staging, modified_name ++ "_temp_" ++ toString i)
    match fs.read (staging, modified_name) with
    | none => (fs, [], .error "copy2: no such file")
    | some content =>
      let fs1 := fs.write temp content
      let (fs2, r) := safe_write fs1 temp dest_dir on_conflict (some current_filename)
      match r with
      | .error e => (fs2, [temp], .error e)
      | .ok final_path =>
        let (fs3, temps, rr) := destLoop zid staging modified_name on_conflict fs2 rest (i + 1)
        match rr with
        | .ok outs => (fs3, temp :: temps, .ok ((zid, some final_path) :: outs))
        | .error e => (fs3, temp :: temps, .error e)

/-- Processing of one qualifying member (lines 238-318), including the
`finally` cleanup of the staged files on both the success and the error
path. -/
def processMember (fs : FS) (zid : FPath) (zstem : String) (member content : String)
    (mapping : List Rule) (default_dest : Option String)
    (work_dir on_conflict : String) (dry_run : Bool) :
    FS × Except String (List Outcome) :=
  let inner_name := pathName member
  let dest_dirs := resolve_destinations inner_name mapping default_dest
  if dest_dirs.isEmpty then (fs, .ok [(zid, none)])
  else
    let modified_name := inner_name
    if dry_run then
      (fs, .ok (dest_dirs.map (fun d => (zid, some (d, route_filename fs d modified_name)))))
    else
      let staging_dir := work_dir ++ "/__staging__" ++ zstem
      let fs1 := (fs.mkdir staging_dir).write (staging_dir, modified_name) content
      let (fs2, temps, r) := destLoop zid staging_dir modified_name on_conflict fs1 dest_dirs 0
      let fs3 := temps.foldl (fun a t => a.unlink t) (fs2.unlink (staging_dir, modified_name))
      (fs3, r)

/-- The `for member in members` loop: outcomes accumulate; a raised exception
abandons the remaining members (and the outcomes gathered so far). -/
def memberLoop (zid : FPath) (zstem : String) (mapping : List Rule)
    (default_dest : Option String) (work_dir on_conflict : String) (dry_run : Bool) :
    FS → List (String × String) → FS × Except String (List Outcome)
  | fs, [] => (fs, .ok [])
  | fs, m :: ms =>
    let pr := processMember fs zid zstem m.1 m.2 mapping default_dest
      work_dir on_conflict dry_run
    match pr.2 with
    | .error e => (pr.1, .error e)
    | .ok outs =>
      let rr := memberLoop zid zstem mapping default_dest work_dir on_conflict dry_run pr.1 ms
      match rr.2 with
      | .ok outs2 => (rr.1, .ok (outs ++ outs2))
      | .error e => (rr.1, .error e)

/-- `extract_and_route_zip`.  Returns the filesystem after the call and either
the outcome list or the exception that escaped (killing the whole archive
job, mutations so far kept). -/
def extract_and_route_zip (fs : FS) (z : ZipFile) (mapping : List Rule)
    (default_dest : Option String) (work_dir on_conflict : String)
    (dry_run : Bool) : FS × Except String (List Outcome) :=
  if z.valid = false then (fs, .ok [])
  else
    let members := z.members.filter (fun m => member_selected m.1)
    if members.isEmpty then (fs, .ok [])
    else
      memberLoop z.zid (splitExt z.zname).1 mapping default_dest work_dir on_conflict
        dry_run fs members

/-- The outcomes one qualifying member is intended to produce: the
destinations resolved by `resolve_destinations` paired with the output name
chosen by the (periodic-suffix aware) naming logic, or a single `none`
outcome when nothing resolves.  This is the reference pipeline the dry-run
branch is proved to follow. -/
def memberIntended (fs : FS) (zid : FPath) (mapping : List Rule)
    (default_dest : Option String) (member : String) : List Outcome :=
  let inner_name := pathName member
  let dest_dirs := resolve_destinations inner_name mapping default_dest
  if dest_dirs.isEmpty then [(zid, none)]
  else dest_dirs.map (fun dd => (zid, some (dd, route_filename fs dd inner_name)))

/-- All outcomes an archive is intended to produce, member by member. -/
def intendedOutcomes (fs : FS) (z : ZipFile) (mapping : List Rule)
    (default_dest : Option String) : List Outcome :=
  (z.members.filter (fun m => member_selected m.1)).flatMap
    (fun m => memberIntended fs z.zid mapping default_dest m.1)

/-! ## Mapping loading (`load_mapping`, lines 97-140)

`json.loads` / `yaml.safe_load` are library parsers, not code of this
repository; the embedding abstracts the parse result.  A parsed list entry is
a `Row`: either not a dict, or a dict with the (string-coerced) values of its
`pattern` / `dest` keys, `none` when a key is missing.  Errors are modelled
structurally (`MapErr`), keeping the data the message interpolates (the
offending index). -/

inductive Row where
  | nonDict : Row
  | dict : Option String → Option String → Row
deriving DecidableEq, Repr

/-- The parse result of the mapping file: a list, or something else. -/
inductive ParsedDoc where
  | list : List Row → ParsedDoc
  | notList : ParsedDoc
deriving DecidableEq, Repr

inductive MapErr where
  /-- `FileNotFoundError: Mapping file not found: ...` -/
  | fileNotFound : MapErr
  /-- `RuntimeError: PyYAML is not installed. ...` -/
  | yamlMissing : MapErr
  /-- `ValueError: Unsupported mapping file type. Use .json, .yml, or .yaml` -/
  | unsupportedType : MapErr
  /-- `ValueError: Mapping file must be a list of {pattern, dest} entries.` -/
  | notAList : MapErr
  /-- `ValueError: Invalid mapping at index {i}: expected keys ...` -/
  | invalidEntry : Nat → MapErr
  /-- `ValueError: Empty pattern/dest at index {i}` -/
  | emptyPatternDest : Nat → MapErr
deriving DecidableEq, Repr

/-- Python `str.strip()` (whitespace trimming on both ends). -/
def pyStrip (s : String) : String :=
  String.mk (((s.data.dropWhile Char.isWhitespace).reverse.dropWhile
    Char.isWhitespace).reverse)

/-- The validation loop of `load_mapping` (lines 131-139), carried out at
running index `i`. -/
def validate_rows (i : Nat) : List Row → Except MapErr (List Rule)
  | [] => .ok []
  | .nonDict :: _ => .error (.invalidEntry i)
  | .dict p d :: rest =>
    match p, d with
    | some ps, some ds =>
      let pattern := pyStrip ps
      let dest := pyStrip ds
      if pattern = "" ∨ dest = "" then .error (.emptyPatternDest i)
      else
        match validate_rows (i + 1) rest with
        | .ok tail => .ok ({ pattern := pattern, dest := dest } :: tail)
        | .error e => .error e
    | _, _ => .error (.invalidEntry i)

/-- `load_mapping`: existence check, suffix dispatch to a parser (abstracted:
`parsed` is what the chosen parser returns), then schema validation. -/
def load_mapping (fileExists : Bool) (suffix : String) (yamlAvailable : Bool)
    (parsed : ParsedDoc) : Except MapErr (List Rule) :=
  if fileExists = false then .error .fileNotFound
  else if strToLower suffix = ".json" then
    match parsed with
    | .list rows => validate_rows 0 rows
    | .notList => .error .notAList
  else if strToLower suffix = ".yml" ∨ strToLower suffix = ".yaml" then
    if yamlAvailable = false then .error .yamlMissing
    else
      match parsed with
      | .list rows => validate_rows 0 rows
      | .notList => .error .notAList
  else .error .unsupportedType

/-- Characterisation of a valid mapping entry: a dict with both keys whose
string-coerced values are non-empty after stripping. -/
def rowGood : Row → Bool
  | .nonDict => false
  | .dict p d =>
    match p, d with
    | some ps, some ds =>
      !(decide (pyStrip ps = "")) && !(decide (pyStrip ds = ""))
    | _, _ => false

/-- The error `load_mapping` raises for a given offending entry. -/
def rowErr (i : Nat) : Row → MapErr
  | .nonDict => .invalidEntry i
  | .dict p d =>
    match p, d with
    | some _, some _ => .emptyPatternDest i
    | _, _ => .invalidEntry i

/-- The cleaned rule a valid entry contributes. -/
def cleanRow : Row → Rule
  | .dict (some p) (some d) => { pattern := pyStrip p, dest := pyStrip d }
  | _ => { pattern := "", dest := "" }

/-! ## `main` (lines 343-395)

The CLI surface is abstracted to its decisions: whether the source directory
exists, the result of `load_mapping`, and the (sorted) list of `*.csv.zip`
archives found.  The thread pool is modelled as sequential processing of the
archives; a per-archive exception is caught and logged (line 380-381), the
run continues. -/

/-- The final cleanup (lines 384-389): `rmtree` of every `__staging__*`
directory under the working directory. -/
def cleanupStaging (fs : FS) (work_dir : String) : FS :=
  { files := fs.files.filter
      (fun e => !(decide ((work_dir ++ "/__staging__").data <+: e.1.1.data)))
    dirs := fs.dirs.filter
      (fun d => !(decide ((work_dir ++ "/__staging__").data <+: d.data))) }

/-- Processing of one archive inside the worker loop of `main` (lines
368-381): run `extract_and_route_zip`; on success extend the aggregated
outcome list, on a raised exception log and keep going (the archive
contributes nothing). -/
def main_step (mapping : List Rule) (default_dest : Option String)
    (work_dir on_conflict : String) (dry_run : Bool)
    (st : FS × List Outcome) (z : ZipFile) : FS × List Outcome :=
  let pr := extract_and_route_zip st.1 z mapping default_dest work_dir
    on_conflict dry_run
  match pr.2 with
  | .ok outs => (pr.1, st.2 ++ outs)
  | .error _ => (pr.1, st.2)

/-- `main`: returns the process exit code, the final filesystem, and the
aggregated outcome list. -/
def main_model (source_dir_exists : Bool) (mapping_res : Except MapErr (List Rule))
    (zips : List ZipFile) (default_dest : Option String) (work_dir : String)
    (on_conflict : String) (dry_run : Bool) (fs : FS) :
    Nat × FS × List Outcome :=
  if source_dir_exists = false then (2, fs, [])
  else
    match mapping_res with
    | .error _ => (2, fs, [])
    | .ok mapping =>
      if zips.isEmpty then (0, fs, [])
      else
        let fs1 := fs.mkdir work_dir
        let final := zips.foldl
          (main_step mapping default_dest work_dir on_conflict dry_run) (fs1, [])
        let fs2 := if dry_run then final.1 else cleanupStaging final.1 work_dir
        (0, fs2, final.2)

/-- Decimal value of a digit string (used only to prove `Nat.repr`
injective, which in turn shows the rename probe's fuel bound is sufficient). -/
def digitsVal (l : List Char) : Nat :=
  l.foldl (fun a c => 10 * a + (c.toNat - 48)) 0

/-! ## Helper lemmas about the filesystem model -/

theorem FS.files_mkdir (fs : FS) (d : String) : (fs.mkdir d).files = fs.files := rfl

theorem FS.existsFile_mkdir (fs : FS) (d : String) (p : FPath) :
    (fs.mkdir d).existsFile p = fs.existsFile p := rfl

theorem FS.read_mkdir (fs : FS) (d : String) (p : FPath) :
    (fs.mkdir d).read p = fs.read p := rfl

theorem FS.existsFile_unlink_self (fs : FS) (p : FPath) :
    (fs.unlink p).existsFile p = false := by
  simp [FS.existsFile, FS.unlink, List.any_filter]

theorem FS.existsFile_unlink_ne (fs : FS) {p q : FPath} (h : q ≠ p) :
    (fs.unlink p).existsFile q = fs.existsFile q := by
  simp only [FS.existsFile, FS.unlink, List.any_filter]
  congr 1
  funext a
  by_cases hq : a.1 = q
  · have hap : a.1 ≠ p := fun hp => h (hq.symm.trans hp)
    simp [hq, hap, h]
  · simp [hq]

theorem find?_key_filter_ne (l : List (FPath × String)) (p q : FPath) (h : q ≠ p) :
    List.find? (fun e => decide (e.1 = q)) (l.filter (fun e => decide (e.1 ≠ p))) =
      List.find? (fun e => decide (e.1 = q)) l := by
  induction l with
  | nil => rfl
  | cons e rest ih =>
    by_cases hp : e.1 = p
    · have hq : e.1 ≠ q := fun he => h (he.symm.trans hp)
      rw [List.filter_cons_of_neg (by simpa using hp),
        List.find?_cons_of_neg _ (by simpa using hq)]
      exact ih
    · rw [List.filter_cons_of_pos (by simpa using hp)]
      by_cases hq : e.1 = q
      · rw [List.find?_cons_of_pos _ (by simpa using hq),
          List.find?_cons_of_pos _ (by simpa using hq)]
      · rw [List.find?_cons_of_neg _ (by simpa using hq),
          List.find?_cons_of_neg _ (by simpa using hq)]
        exact ih

theorem FS.read_unlink_ne (fs : FS) {p q : FPath} (h : q ≠ p) :
    (fs.unlink p).read q = fs.read q := by
  simp only [FS.read, FS.unlink]
  rw [find?_key_filter_ne fs.files p q h]

theorem FS.read_write_self (fs : FS) (p : FPath) (c : String) :
    (fs.write p c).read p = some c := by
  simp [FS.read, FS.write, List.find?]

theorem FS.read_write_ne (fs : FS) {p q : FPath} (c : String) (h : q ≠ p) :
    (fs.write p c).read q = fs.read q := by
  have step : (fs.write p c).read q = (fs.unlink p).read q := by
    simp only [FS.write, FS.read]
    rw [List.find?_cons_of_neg]
    simp only [decide_eq_true_eq]
    exact fun hp => h hp.symm
  exact step.trans (FS.read_unlink_ne fs h)

theorem FS.existsFile_write_self (fs : FS) (p : FPath) (c : String) :
    (fs.write p c).existsFile p = true := by
  simp [FS.existsFile, FS.write]

theorem FS.existsFile_write_ne (fs : FS) {p q : FPath} (c : String) (h : q ≠ p) :
    (fs.write p c).existsFile q = fs.existsFile q := by
  have step : (fs.write p c).existsFile q = (fs.unlink p).existsFile q := by
    simp only [FS.write, FS.existsFile, List.any_cons]
    have hpq : decide (((p, c) : FPath × String).1 = q) = false := by
      simp only [decide_eq_false_iff_not]
      exact fun hp => h hp.symm
    simp [hpq]
  exact step.trans (FS.existsFile_unlink_ne fs h)

theorem FS.existsFile_eq_isSome_read (fs : FS) (p : FPath) :
    fs.existsFile p = (fs.read p).isSome := by
  simp only [FS.existsFile, FS.read, Option.isSome_map']
  by_cases h : ∃ x ∈ fs.files, decide (x.1 = p)
  · have h1 : fs.files.any (fun e => decide (e.1 = p)) = true := List.any_eq_true.mpr h
    have h2 : (fs.files.find? (fun e => decide (e.1 = p))).isSome := by
      rw [List.find?_isSome]
      exact h
    rw [h1, h2]
  · have h1 : fs.files.any (fun e => decide (e.1 = p)) = false := by
      rw [← Bool.not_eq_true, List.any_eq_true]
      exact h
    have h2 : ¬(fs.files.find? (fun e => decide (e.1 = p))).isSome = true := by
      rw [List.find?_isSome]
      exact h
    rw [h1, Bool.not_eq_true] at *
    rw [h2]

theorem FS.move_eq_some {fs fs' : FS} {src dst : FPath} (h : fs.move src dst = some fs') :
    ∃ c, fs.read src = some c ∧ fs' = (fs.unlink src).write dst c := by
  unfold FS.move at h
  cases hr : fs.read src with
  | none => rw [hr] at h; exact absurd h (by simp)
  | some c =>
    rw [hr] at h
    simp only [Option.some.injEq] at h
    exact ⟨c, rfl, h.symm⟩

/-! ## C1: route resolution -/

theorem matchLoop_eq_filter_map (f : String) (M : List Rule) :
    matchLoop f M = (M.filter (fun r => fnmatch f r.pattern)).map Rule.dest := by
  induction M with
  | nil => rfl
  | cons r rs ih =>
    rw [matchLoop]
    by_cases h : fnmatch f r.pattern
    · simp [h, List.filter_cons, ih]
    · simp only [Bool.not_eq_true] at h
      simp [h, List.filter_cons, ih]

/-- C1: `resolve_destinations` returns exactly the destinations of the rules
whose pattern glob-matches the filename, in rule order and without
deduplication; when no rule matches it returns `[default]` if a default is
configured and `[]` otherwise. -/
theorem C1_resolve_destinations_spec (f : String) (M : List Rule) (d : Option String) :
    resolve_destinations f M d =
      (if ((M.filter (fun r => fnmatch f r.pattern)).map Rule.dest).isEmpty then
        (match d with
         | some x => [x]
         | none => [])
      else (M.filter (fun r => fnmatch f r.pattern)).map Rule.dest) := by
  unfold resolve_destinations
  rw [matchLoop_eq_filter_map]

/-! ## Helper lemmas about `safe_write` -/

theorem FS.read_unlink_self (fs : FS) (p : FPath) : (fs.unlink p).read p = none := by
  have h := FS.existsFile_unlink_self fs p
  rw [FS.existsFile_eq_isSome_read] at h
  exact Option.not_isSome_iff_eq_none.mp (by simp [h])

theorem FS.existsFile_of_read {fs : FS} {p : FPath} {c : String}
    (h : fs.read p = some c) : fs.existsFile p = true := by
  rw [FS.existsFile_eq_isSome_read, h]
  rfl

theorem probe_rename_not_exists {fs : FS} {dest_dir stem suffix cand : String} :
    ∀ {fuel counter : Nat},
      probe_rename fs dest_dir stem suffix fuel counter = some cand →
      fs.existsFile (dest_dir, cand) = false := by
  intro fuel
  induction fuel with
  | zero => intro counter h; simp [probe_rename] at h
  | succ n ih =>
    intro counter h
    rw [probe_rename] at h
    split at h
    · exact ih h
    · rename_i hex
      simp only [Option.some.injEq] at h
      rw [← h]
      simpa using hex

/-- Full characterisation of the probe: the result is the candidate name of
the first counter `≥` the starting one whose path is unused; every smaller
probed counter was in use. -/
theorem probe_rename_spec {fs : FS} {dest_dir stem suffix cand : String} :
    ∀ {fuel counter : Nat},
      probe_rename fs dest_dir stem suffix fuel counter = some cand →
      ∃ k, counter ≤ k
        ∧ cand = stem ++ "_" ++ toString k ++ suffix
        ∧ fs.existsFile (dest_dir, cand) = false
        ∧ ∀ j, counter ≤ j → j < k →
            fs.existsFile (dest_dir, stem ++ "_" ++ toString j ++ suffix) = true := by
  intro fuel
  induction fuel with
  | zero => intro counter h; simp [probe_rename] at h
  | succ n ih =>
    intro counter h
    rw [probe_rename] at h
    split at h
    · rename_i hex
      obtain ⟨k, hk1, hk2, hk3, hk4⟩ := ih h
      refine ⟨k, by omega, hk2, hk3, ?_⟩
      intro j hj1 hj2
      by_cases hje : j = counter
      · subst hje
        exact hex
      · exact hk4 j (by omega) hj2
    · rename_i hex
      simp only [Option.some.injEq] at h
      refine ⟨counter, le_refl _, h.symm, ?_, ?_⟩
      · rw [← h]
        simpa using hex
      · intro j hj1 hj2
        omega

/-! ### Sufficiency of the rename probe's fuel

`Nat.repr` is injective, so candidate names for distinct counters are
distinct paths, and `fs.files.length + 1` probes must find an unused one. -/

theorem toDigitsCore_ten_append : ∀ (f n : Nat) (acc : List Char), n < f →
    Nat.toDigitsCore 10 f n acc = Nat.toDigitsCore 10 f n [] ++ acc := by
  intro f
  induction f with
  | zero => intro n acc h; exact absurd h (Nat.not_lt_zero n)
  | succ fuel ih =>
    intro n acc h
    rw [Nat.toDigitsCore, Nat.toDigitsCore]
    by_cases hn : n / 10 = 0
    · simp [hn]
    · simp only [hn, if_neg, ite_false]
      have hpos : 0 < n := by
        rcases Nat.eq_zero_or_pos n with h0 | h0
        · exact absurd (by simp [h0]) hn
        · exact h0
      have hlt : n / 10 < fuel := by
        have hdiv : n / 10 < n := Nat.div_lt_self hpos (by omega)
        omega
      rw [ih (n / 10) (Nat.digitChar (n % 10) :: acc) hlt,
        ih (n / 10) [Nat.digitChar (n % 10)] hlt]
      simp

theorem digitVal_digitChar : ∀ d, d < 10 → (Nat.digitChar d).toNat - 48 = d := by
  decide

theorem digitsVal_append_one (xs : List Char) (c : Char) :
    digitsVal (xs ++ [c]) = 10 * digitsVal xs + (c.toNat - 48) := by
  simp [digitsVal, List.foldl_append]

theorem digitsVal_toDigitsCore : ∀ (f n : Nat), n < f →
    digitsVal (Nat.toDigitsCore 10 f n []) = n := by
  intro f
  induction f with
  | zero => intro n h; exact absurd h (Nat.not_lt_zero n)
  | succ fuel ih =>
    intro n h
    rw [Nat.toDigitsCore]
    by_cases hn : n / 10 = 0
    · have hn10 : n < 10 := by omega
      have hmod : n % 10 = n := Nat.mod_eq_of_lt hn10
      simp [hn, digitsVal, hmod]
      exact digitVal_digitChar n hn10
    · simp only [hn, if_neg, ite_false]
      have hpos : 0 < n := by
        rcases Nat.eq_zero_or_pos n with h0 | h0
        · exact absurd (by simp [h0]) hn
        · exact h0
      have hlt : n / 10 < fuel := by
        have hdiv : n / 10 < n := Nat.div_lt_self hpos (by omega)
        omega
      rw [toDigitsCore_ten_append fuel (n / 10) [Nat.digitChar (n % 10)] hlt,
        digitsVal_append_one, ih (n / 10) hlt,
        digitVal_digitChar (n % 10) (Nat.mod_lt n (by omega))]
      omega

theorem nat_repr_injective {a b : Nat} (h : Nat.repr a = Nat.repr b) : a = b := by
  have hdata : Nat.toDigitsCore 10 (a + 1) a [] = Nat.toDigitsCore 10 (b + 1) b [] := by
    have hcong := congrArg String.data h
    simpa [Nat.repr, Nat.toDigits, List.asString] using hcong
  have ha := digitsVal_toDigitsCore (a + 1) a (Nat.lt_succ_self a)
  have hb := digitsVal_toDigitsCore (b + 1) b (Nat.lt_succ_self b)
  rw [← ha, ← hb, hdata]

theorem candidate_name_injective (stem suffix : String) {j k : Nat}
    (h : stem ++ "_" ++ toString j ++ suffix = stem ++ "_" ++ toString k ++ suffix) :
    j = k := by
  apply nat_repr_injective
  have hd := congrArg String.data h
  simp only [String.data_append] at hd
  have h1 := List.append_cancel_right hd
  have h2 := List.append_cancel_left h1
  have hstr : (toString j : String).data = (toString k : String).data := h2
  show Nat.repr j = Nat.repr k
  cases hj : (Nat.repr j) with
  | mk dj =>
    cases hk : (Nat.repr k) with
    | mk dk =>
      have : dj = dk := by
        have e1 : (toString j : String) = ⟨dj⟩ := hj
        have e2 : (toString k : String) = ⟨dk⟩ := hk
        rw [e1, e2] at hstr
        exact hstr
      rw [this]

theorem probe_rename_none_all_exist {fs : FS} {dest_dir stem suffix : String} :
    ∀ {fuel counter : Nat},
      probe_rename fs dest_dir stem suffix fuel counter = none →
      ∀ t, t < fuel →
        fs.existsFile (dest_dir, stem ++ "_" ++ toString (counter + t) ++ suffix)
          = true := by
  intro fuel
  induction fuel with
  | zero => intro counter h t ht; omega
  | succ n ih =>
    intro counter h t ht
    rw [probe_rename] at h
    split at h
    · rename_i hex
      cases t with
      | zero => simpa using hex
      | succ t' =>
        have hstep := ih h t' (by omega)
        have harith : counter + 1 + t' = counter + (t' + 1) := by omega
        rw [harith] at hstep
        exact hstep
    · exact absurd h (by simp)

/-- With `fs.files.length + 1` units of fuel, the rename probe always finds
an unused candidate: the `while True` loop of the source cannot fail. -/
theorem probe_rename_fuel_sufficient (fs : FS) (dest_dir stem suffix : String) :
    probe_rename fs dest_dir stem suffix (fs.files.length + 1) 1 ≠ none := by
  intro h
  have hall := probe_rename_none_all_exist h
  have hnodup : ((List.range (fs.files.length + 1)).map
      (fun t => ((dest_dir, stem ++ "_" ++ toString (1 + t) ++ suffix) : FPath))).Nodup := by
    refine (List.nodup_range _).map ?_
    intro t1 t2 hteq
    have hsnd : stem ++ "_" ++ toString (1 + t1) ++ suffix
        = stem ++ "_" ++ toString (1 + t2) ++ suffix := congrArg Prod.snd hteq
    have := candidate_name_injective stem suffix hsnd
    omega
  have hsub : ((List.range (fs.files.length + 1)).map
      (fun t => ((dest_dir, stem ++ "_" ++ toString (1 + t) ++ suffix) : FPath)))
      ⊆ fs.files.map (fun e => e.1) := by
    intro p hp
    simp only [List.mem_map, List.mem_range] at hp
    obtain ⟨t, ht, rfl⟩ := hp
    have hex := hall t ht
    simp only [FS.existsFile, List.any_eq_true, decide_eq_true_eq] at hex
    obtain ⟨e, he, hkey⟩ := hex
    exact List.mem_map.mpr ⟨e, he, hkey⟩
  have hlen := (List.subperm_of_subset hnodup hsub).length_le
  simp at hlen

theorem safe_write_skip_of_exists (fs : FS) (src : FPath) (dest_dir : String)
    (dfn : Option String)
    (hex : (fs.mkdir dest_dir).existsFile (dest_dir, orName dfn src.2) = true) :
    safe_write fs src dest_dir "skip" dfn =
      ((fs.mkdir dest_dir).unlink src, .ok (dest_dir, orName dfn src.2)) := by
  simp only [safe_write]
  rw [if_pos hex, if_neg (by decide)]
  simp

theorem safe_write_unknown_of_exists (fs : FS) (src : FPath) (dest_dir policy : String)
    (dfn : Option String)
    (h1 : policy ≠ "overwrite") (h2 : policy ≠ "skip") (h3 : policy ≠ "rename")
    (hex : (fs.mkdir dest_dir).existsFile (dest_dir, orName dfn src.2) = true) :
    safe_write fs src dest_dir policy dfn =
      ((fs.mkdir dest_dir).unlink src,
        .error ("Unknown on_conflict strategy: " ++ policy)) := by
  simp only [safe_write]
  rw [if_pos hex, if_neg h1, if_neg h2, if_neg h3]

theorem safe_write_overwrite_of_exists (fs : FS) (src : FPath) (dest_dir : String)
    (dfn : Option String)
    (hex : (fs.mkdir dest_dir).existsFile (dest_dir, orName dfn src.2) = true) :
    safe_write fs src dest_dir "overwrite" dfn =
      (match ((fs.mkdir dest_dir).unlink (dest_dir, orName dfn src.2)).move src
          (dest_dir, orName dfn src.2) with
       | some fs2 => (fs2, .ok (dest_dir, orName dfn src.2))
       | none => ((fs.mkdir dest_dir).unlink (dest_dir, orName dfn src.2),
           .error "move: no such file")) := by
  simp only [safe_write]
  rw [if_pos hex]
  simp

theorem safe_write_rename_of_exists (fs : FS) (src : FPath) (dest_dir : String)
    (dfn : Option String)
    (hex : (fs.mkdir dest_dir).existsFile (dest_dir, orName dfn src.2) = true) :
    safe_write fs src dest_dir "rename" dfn =
      (match probe_rename (fs.mkdir dest_dir) dest_dir
          (splitExt (orName dfn src.2)).1 (splitExt (orName dfn src.2)).2
          ((fs.mkdir dest_dir).files.length + 1) 1 with
       | some candidate =>
         (match (fs.mkdir dest_dir).move src (dest_dir, candidate) with
          | some fs2 => (fs2, .ok (dest_dir, candidate))
          | none => (fs.mkdir dest_dir, .error "move: no such file"))
       | none => (fs.mkdir dest_dir, .error "rename probe out of fuel")) := by
  simp only [safe_write]
  rw [if_pos hex, if_neg (by decide), if_neg (by decide)]
  simp

theorem safe_write_of_not_exists (fs : FS) (src : FPath) (dest_dir policy : String)
    (dfn : Option String)
    (hex : (fs.mkdir dest_dir).existsFile (dest_dir, orName dfn src.2) = false) :
    safe_write fs src dest_dir policy dfn =
      (match (fs.mkdir dest_dir).move src (dest_dir, orName dfn src.2) with
       | some fs2 => (fs2, .ok (dest_dir, orName dfn src.2))
       | none => (fs.mkdir dest_dir, .error "move: no such file")) := by
  simp only [safe_write]
  rw [if_neg (by simp [hex])]

theorem safe_write_overwrite_moved (fs : FS) (src : FPath) (dest_dir : String)
    (dfn : Option String) (fs2 : FS)
    (hex : (fs.mkdir dest_dir).existsFile (dest_dir, orName dfn src.2) = true)
    (hmv : ((fs.mkdir dest_dir).unlink (dest_dir, orName dfn src.2)).move src
      (dest_dir, orName dfn src.2) = some fs2) :
    safe_write fs src dest_dir "overwrite" dfn =
      (fs2, .ok (dest_dir, orName dfn src.2)) := by
  rw [safe_write_overwrite_of_exists fs src dest_dir dfn hex, hmv]

theorem safe_write_rename_moved (fs : FS) (src : FPath) (dest_dir : String)
    (dfn : Option String) (cand : String) (fs2 : FS)
    (hex : (fs.mkdir dest_dir).existsFile (dest_dir, orName dfn src.2) = true)
    (hpr : probe_rename (fs.mkdir dest_dir) dest_dir
      (splitExt (orName dfn src.2)).1 (splitExt (orName dfn src.2)).2
      ((fs.mkdir dest_dir).files.length + 1) 1 = some cand)
    (hmv : (fs.mkdir dest_dir).move src (dest_dir, cand) = some fs2) :
    safe_write fs src dest_dir "rename" dfn = (fs2, .ok (dest_dir, cand)) := by
  rw [safe_write_rename_of_exists fs src dest_dir dfn hex, hpr]
  show (match (fs.mkdir dest_dir).move src (dest_dir, cand) with
    | some fs2 => (fs2, Except.ok (dest_dir, cand))
    | none => (fs.mkdir dest_dir, Except.error "move: no such file")) = _
  rw [hmv]

theorem safe_write_rename_probe_failed (fs : FS) (src : FPath) (dest_dir : String)
    (dfn : Option String)
    (hex : (fs.mkdir dest_dir).existsFile (dest_dir, orName dfn src.2) = true)
    (hpr : probe_rename (fs.mkdir dest_dir) dest_dir
      (splitExt (orName dfn src.2)).1 (splitExt (orName dfn src.2)).2
      ((fs.mkdir dest_dir).files.length + 1) 1 = none) :
    safe_write fs src dest_dir "rename" dfn =
      (fs.mkdir dest_dir, .error "rename probe out of fuel") := by
  rw [safe_write_rename_of_exists fs src dest_dir dfn hex, hpr]

theorem safe_write_rename_move_failed (fs : FS) (src : FPath) (dest_dir : String)
    (dfn : Option String) (cand : String)
    (hex : (fs.mkdir dest_dir).existsFile (dest_dir, orName dfn src.2) = true)
    (hpr : probe_rename (fs.mkdir dest_dir) dest_dir
      (splitExt (orName dfn src.2)).1 (splitExt (orName dfn src.2)).2
      ((fs.mkdir dest_dir).files.length + 1) 1 = some cand)
    (hmv : (fs.mkdir dest_dir).move src (dest_dir, cand) = none) :
    safe_write fs src dest_dir "rename" dfn =
      (fs.mkdir dest_dir, .error "move: no such file") := by
  rw [safe_write_rename_of_exists fs src dest_dir dfn hex, hpr]
  show (match (fs.mkdir dest_dir).move src (dest_dir, cand) with
    | some fs2 => (fs2, Except.ok (dest_dir, cand))
    | none => (fs.mkdir dest_dir, Except.error "move: no such file")) = _
  rw [hmv]

theorem safe_write_fresh_moved (fs : FS) (src : FPath) (dest_dir policy : String)
    (dfn : Option String) (fs2 : FS)
    (hex : (fs.mkdir dest_dir).existsFile (dest_dir, orName dfn src.2) = false)
    (hmv : (fs.mkdir dest_dir).move src (dest_dir, orName dfn src.2) = some fs2) :
    safe_write fs src dest_dir policy dfn =
      (fs2, .ok (dest_dir, orName dfn src.2)) := by
  rw [safe_write_of_not_exists fs src dest_dir policy dfn hex, hmv]

theorem safe_write_fresh_move_failed (fs : FS) (src : FPath) (dest_dir policy : String)
    (dfn : Option String)
    (hex : (fs.mkdir dest_dir).existsFile (dest_dir, orName dfn src.2) = false)
    (hmv : (fs.mkdir dest_dir).move src (dest_dir, orName dfn src.2) = none) :
    safe_write fs src dest_dir policy dfn =
      (fs.mkdir dest_dir, .error "move: no such file") := by
  rw [safe_write_of_not_exists fs src dest_dir policy dfn hex, hmv]

theorem safe_write_overwrite_move_failed (fs : FS) (src : FPath) (dest_dir : String)
    (dfn : Option String)
    (hex : (fs.mkdir dest_dir).existsFile (dest_dir, orName dfn src.2) = true)
    (hmv : ((fs.mkdir dest_dir).unlink (dest_dir, orName dfn src.2)).move src
      (dest_dir, orName dfn src.2) = none) :
    safe_write fs src dest_dir "overwrite" dfn =
      ((fs.mkdir dest_dir).unlink (dest_dir, orName dfn src.2),
        .error "move: no such file") := by
  rw [safe_write_overwrite_of_exists fs src dest_dir dfn hex, hmv]

/-! ## C7: the writer always consumes the staged input on success -/

/-- C7: for every policy in `{overwrite, skip, rename}` and every input,
whenever `safe_write` returns normally the staged source file has been
consumed (moved or deleted): the staged path no longer exists afterwards. -/
theorem C7_safe_write_consumes_staged (fs : FS) (src : FPath)
    (dest_dir policy : String) (dfn : Option String) (p : FPath)
    (hpol : policy = "overwrite" ∨ policy = "skip" ∨ policy = "rename")
    (hok : (safe_write fs src dest_dir policy dfn).2 = .ok p) :
    (safe_write fs src dest_dir policy dfn).1.existsFile src = false := by
  by_cases hex : (fs.mkdir dest_dir).existsFile (dest_dir, orName dfn src.2) = true
  · rcases hpol with hpol | hpol | hpol <;> subst hpol
    · -- overwrite
      cases hmv : ((fs.mkdir dest_dir).unlink (dest_dir, orName dfn src.2)).move src
          (dest_dir, orName dfn src.2) with
      | none =>
        rw [safe_write_overwrite_move_failed fs src dest_dir dfn hex hmv] at hok
        simp at hok
      | some fs2 =>
        rw [safe_write_overwrite_moved fs src dest_dir dfn fs2 hex hmv]
        obtain ⟨c, hread, hfs2⟩ := FS.move_eq_some hmv
        have hne : src ≠ (dest_dir, orName dfn src.2) := by
          intro hst
          rw [← hst, FS.read_unlink_self] at hread
          simp at hread
        rw [hfs2, FS.existsFile_write_ne _ c hne]
        exact FS.existsFile_unlink_self _ src
    · -- skip
      rw [safe_write_skip_of_exists fs src dest_dir dfn hex]
      exact FS.existsFile_unlink_self _ src
    · -- rename
      cases hpr : probe_rename (fs.mkdir dest_dir) dest_dir
          (splitExt (orName dfn src.2)).1 (splitExt (orName dfn src.2)).2
          ((fs.mkdir dest_dir).files.length + 1) 1 with
      | none =>
        rw [safe_write_rename_probe_failed fs src dest_dir dfn hex hpr] at hok
        simp at hok
      | some cand =>
        cases hmv : (fs.mkdir dest_dir).move src (dest_dir, cand) with
        | none =>
          rw [safe_write_rename_move_failed fs src dest_dir dfn cand hex hpr hmv] at hok
          simp at hok
        | some fs2 =>
          rw [safe_write_rename_moved fs src dest_dir dfn cand fs2 hex hpr hmv]
          obtain ⟨c, hread, hfs2⟩ := FS.move_eq_some hmv
          have hcand := probe_rename_not_exists hpr
          have hsrc : (fs.mkdir dest_dir).existsFile src = true :=
            FS.existsFile_of_read hread
          have hne : src ≠ (dest_dir, cand) := by
            intro hst
            rw [hst] at hsrc
            rw [hsrc] at hcand
            exact absurd hcand (by simp)
          rw [hfs2, FS.existsFile_write_ne _ c hne]
          exact FS.existsFile_unlink_self _ src
  · -- the target does not exist: every policy moves the staged file there
    have hex' : (fs.mkdir dest_dir).existsFile (dest_dir, orName dfn src.2) = false := by
      simpa using hex
    cases hmv : (fs.mkdir dest_dir).move src (dest_dir, orName dfn src.2) with
    | none =>
      rw [safe_write_fresh_move_failed fs src dest_dir policy dfn hex' hmv] at hok
      simp at hok
    | some fs2 =>
      rw [safe_write_fresh_moved fs src dest_dir policy dfn fs2 hex' hmv]
      obtain ⟨c, hread, hfs2⟩ := FS.move_eq_some hmv
      have hsrc : (fs.mkdir dest_dir).existsFile src = true :=
        FS.existsFile_of_read hread
      have hne : src ≠ (dest_dir, orName dfn src.2) := by
        intro hst
        rw [hst] at hsrc
        rw [hsrc] at hex'
        exact absurd hex' (by simp)
      rw [hfs2, FS.existsFile_write_ne _ c hne]
      exact FS.existsFile_unlink_self _ src

/-- Witness for C7 at a concrete input (policy `skip`, conflicting target). -/
theorem C7_witness :
    (safe_write ⟨[(("d", "a.csv"), "old"), (("s", "a.csv"), "new")], []⟩
        ("s", "a.csv") "d" "skip" none).1.existsFile ("s", "a.csv") = false :=
  C7_safe_write_consumes_staged
    ⟨[(("d", "a.csv"), "old"), (("s", "a.csv"), "new")], []⟩
    ("s", "a.csv") "d" "skip" none ("d", "a.csv")
    (Or.inr (Or.inl rfl)) (by decide)

/-! ## C2: the `rename` conflict policy -/

/-- C2: with `report.csv` already in the destination directory, a `rename`
write of another `report.csv` produces `report_1.csv`, a third produces
`report_2.csv`, and the pre-existing `report.csv` is never overwritten (the
probed counter names get the staged contents, the original keeps its own).
In general, a `rename` write over an existing target probes
`<stem>_1, <stem>_2, …` (same extension) for the first unused name, moves the
staged file there, returns that path, and leaves the target's content
untouched; the probe always finds an unused name. -/
theorem C2_rename_counter_scenario :
    (∀ (dest sd1 sd2 c0 c1 c2 : String) (ds : List String),
      let fs0 : FS := ⟨[((dest, "report.csv"), c0), ((sd1, "t1"), c1),
        ((sd2, "t2"), c2)], ds⟩
      let r1 := safe_write fs0 (sd1, "t1") dest "rename" (some "report.csv")
      let r2 := safe_write r1.1 (sd2, "t2") dest "rename" (some "report.csv")
      r1.2 = .ok (dest, "report_1.csv")
      ∧ r1.1.read (dest, "report.csv") = some c0
      ∧ r1.1.read (dest, "report_1.csv") = some c1
      ∧ r2.2 = .ok (dest, "report_2.csv")
      ∧ r2.1.read (dest, "report.csv") = some c0
      ∧ r2.1.read (dest, "report_1.csv") = some c1
      ∧ r2.1.read (dest, "report_2.csv") = some c2)
    ∧ (∀ (fs : FS) (src : FPath) (dest_dir : String) (dfn : Option String)
        (cand : String) (fs2 : FS),
        fs.existsFile (dest_dir, orName dfn src.2) = true →
        src ≠ (dest_dir, orName dfn src.2) →
        probe_rename (fs.mkdir dest_dir) dest_dir
          (splitExt (orName dfn src.2)).1 (splitExt (orName dfn src.2)).2
          ((fs.mkdir dest_dir).files.length + 1) 1 = some cand →
        (fs.mkdir dest_dir).move src (dest_dir, cand) = some fs2 →
        safe_write fs src dest_dir "rename" dfn = (fs2, .ok (dest_dir, cand))
        ∧ (∃ k, 1 ≤ k
            ∧ cand = (splitExt (orName dfn src.2)).1 ++ "_" ++ toString k
                ++ (splitExt (orName dfn src.2)).2
            ∧ fs.existsFile (dest_dir, cand) = false
            ∧ ∀ j, 1 ≤ j → j < k →
                fs.existsFile (dest_dir, (splitExt (orName dfn src.2)).1 ++ "_"
                  ++ toString j ++ (splitExt (orName dfn src.2)).2) = true)
        ∧ fs2.read (dest_dir, orName dfn src.2) = fs.read (dest_dir, orName dfn src.2))
    ∧ (∀ (fs : FS) (dest_dir stem suffix : String),
        probe_rename fs dest_dir stem suffix (fs.files.length + 1) 1 ≠ none) := by
  refine ⟨?_, ?_, probe_rename_fuel_sufficient⟩
  · intro dest sd1 sd2 c0 c1 c2 ds
    have t1 : toString (1 : Nat) = "1" := by decide
    have t2 : toString (2 : Nat) = "2" := by decide
    have t3 : toString (3 : Nat) = "3" := by decide
    have t4 : toString (4 : Nat) = "4" := by decide
    have esplit : splitExt "report.csv" = ("report", ".csv") := by decide
    simp [safe_write, probe_rename, orName, esplit, t1, t2, t3, t4, FS.existsFile,
      FS.mkdir, FS.move, FS.read, FS.unlink, FS.write, Prod.ext_iff]
  · intro fs src dest_dir dfn cand fs2 hex hne hpr hmv
    have hex' : (fs.mkdir dest_dir).existsFile (dest_dir, orName dfn src.2) = true := hex
    obtain ⟨k, hk1, hk2, hk3, hk4⟩ := probe_rename_spec hpr
    have hcandne : (dest_dir, orName dfn src.2) ≠ ((dest_dir, cand) : FPath) := by
      intro hq
      rw [hq] at hex'
      rw [hex'] at hk3
      exact absurd hk3 (by simp)
    refine ⟨safe_write_rename_moved fs src dest_dir dfn cand fs2 hex' hpr hmv,
      ⟨k, hk1, hk2, hk3, fun j hj1 hj2 => hk4 j hj1 hj2⟩, ?_⟩
    obtain ⟨c, hread, hfs2⟩ := FS.move_eq_some hmv
    rw [hfs2, FS.read_write_ne _ c hcandne,
      FS.read_unlink_ne _ (fun h => hne h.symm)]
    rfl

/-- Witness for C2's general part at a concrete input. -/
theorem C2_witness :
    safe_write ⟨[(("d", "report.csv"), "c0"), (("s", "t"), "c1")], []⟩
        ("s", "t") "d" "rename" (some "report.csv")
      = ((((⟨[(("d", "report.csv"), "c0"), (("s", "t"), "c1")], []⟩ : FS).mkdir
            "d").unlink ("s", "t")).write ("d", "report_1.csv") "c1",
         .ok ("d", "report_1.csv"))
    ∧ probe_rename ⟨[(("d", "report.csv"), "c0")], []⟩ "d" "report" ".csv" 2 1 ≠ none :=
  ⟨(C2_rename_counter_scenario.2.1
      ⟨[(("d", "report.csv"), "c0"), (("s", "t"), "c1")], []⟩
      ("s", "t") "d" (some "report.csv") "report_1.csv"
      ((((⟨[(("d", "report.csv"), "c0"), (("s", "t"), "c1")], []⟩ : FS).mkdir
          "d").unlink ("s", "t")).write ("d", "report_1.csv") "c1")
      (by decide) (by decide) (by decide) (by decide)).1,
    C2_rename_counter_scenario.2.2
      ⟨[(("d", "report.csv"), "c0")], []⟩ "d" "report" ".csv"⟩

/-! ## C6: the `skip` conflict policy -/

/-- C6: under policy `skip`, when the target name already exists the write
returns the pre-existing target as a non-error result, leaves the target's
content (and every other file except the staged one) unchanged, and discards
the staged copy. -/
theorem C6_safe_write_skip (fs : FS) (src : FPath) (dest_dir : String)
    (dfn : Option String)
    (hex : fs.existsFile (dest_dir, orName dfn src.2) = true)
    (hne : src ≠ (dest_dir, orName dfn src.2)) :
    (safe_write fs src dest_dir "skip" dfn).2 = .ok (dest_dir, orName dfn src.2)
    ∧ (safe_write fs src dest_dir "skip" dfn).1.read (dest_dir, orName dfn src.2)
        = fs.read (dest_dir, orName dfn src.2)
    ∧ (safe_write fs src dest_dir "skip" dfn).1.existsFile src = false
    ∧ ∀ q : FPath, q ≠ src →
        (safe_write fs src dest_dir "skip" dfn).1.read q = fs.read q := by
  have hex' : (fs.mkdir dest_dir).existsFile (dest_dir, orName dfn src.2) = true := hex
  rw [safe_write_skip_of_exists fs src dest_dir dfn hex']
  refine ⟨rfl, ?_, ?_, ?_⟩
  · exact FS.read_unlink_ne (fs.mkdir dest_dir) (fun h => hne h.symm)
  · exact FS.existsFile_unlink_self _ src
  · intro q hq
    exact FS.read_unlink_ne (fs.mkdir dest_dir) hq

/-- Witness for C6 at a concrete input. -/
theorem C6_witness :
    (safe_write ⟨[(("d", "report.csv"), "old"), (("s", "t"), "new")], []⟩
        ("s", "t") "d" "skip" (some "report.csv")).2 = .ok ("d", "report.csv")
    ∧ (safe_write ⟨[(("d", "report.csv"), "old"), (("s", "t"), "new")], []⟩
        ("s", "t") "d" "skip" (some "report.csv")).1.read ("d", "report.csv")
        = (⟨[(("d", "report.csv"), "old"), (("s", "t"), "new")], []⟩ : FS).read
          ("d", "report.csv")
    ∧ (safe_write ⟨[(("d", "report.csv"), "old"), (("s", "t"), "new")], []⟩
        ("s", "t") "d" "skip" (some "report.csv")).1.existsFile ("s", "t") = false :=
  let h := C6_safe_write_skip ⟨[(("d", "report.csv"), "old"), (("s", "t"), "new")], []⟩
    ("s", "t") "d" (some "report.csv") (by decide) (by decide)
  ⟨h.1, h.2.1, h.2.2.1⟩

/-! ## C4: unknown conflict policy -/

/-- C4 counterexample: with an unknown policy (`"bogus"`) and a target that
does not exist yet, `safe_write` does NOT raise: it returns the target as a
success and places the staged file there — refuting the claim that an unknown
policy is fatal and places no file "regardless of whether the target path
already exists". -/
theorem C4_counterexample :
    (safe_write ⟨[(("s", "a.csv"), "x")], []⟩ ("s", "a.csv") "d" "bogus" none).2
      = .ok ("d", "a.csv")
    ∧ (safe_write ⟨[(("s", "a.csv"), "x")], []⟩ ("s", "a.csv") "d" "bogus" none).1.read
        ("d", "a.csv") = some "x" := by
  decide

/-- C4 amended: an unknown policy is fatal only when the target already
exists: then `safe_write` deletes the staged copy, raises
`Unknown on_conflict strategy`, and places no file (the file list is exactly
the original one minus the staged entry).  When the target does not exist the
staged file is moved there without any policy check. -/
theorem C4_amended_unknown_policy (fs : FS) (src : FPath) (dest_dir policy : String)
    (dfn : Option String)
    (h1 : policy ≠ "overwrite") (h2 : policy ≠ "skip") (h3 : policy ≠ "rename")
    (hex : fs.existsFile (dest_dir, orName dfn src.2) = true) :
    (safe_write fs src dest_dir policy dfn).2
      = .error ("Unknown on_conflict strategy: " ++ policy)
    ∧ (safe_write fs src dest_dir policy dfn).1.files = (fs.unlink src).files := by
  have hex' : (fs.mkdir dest_dir).existsFile (dest_dir, orName dfn src.2) = true := hex
  rw [safe_write_unknown_of_exists fs src dest_dir policy dfn h1 h2 h3 hex']
  exact ⟨rfl, rfl⟩

/-- Witness for the amended C4 at a concrete input. -/
theorem C4_witness :
    (safe_write ⟨[(("d", "a.csv"), "y"), (("s", "a.csv"), "x")], []⟩
        ("s", "a.csv") "d" "bogus" none).2
      = .error ("Unknown on_conflict strategy: " ++ "bogus")
    ∧ (safe_write ⟨[(("d", "a.csv"), "y"), (("s", "a.csv"), "x")], []⟩
        ("s", "a.csv") "d" "bogus" none).1.files
      = ((⟨[(("d", "a.csv"), "y"), (("s", "a.csv"), "x")], []⟩ : FS).unlink
          ("s", "a.csv")).files :=
  C4_amended_unknown_policy ⟨[(("d", "a.csv"), "y"), (("s", "a.csv"), "x")], []⟩
    ("s", "a.csv") "d" "bogus" none (by decide) (by decide) (by decide) (by decide)

/-! ## Order lemmas for the lexicographic `max` of month labels -/

theorem charListLt_irrefl : ∀ x : List Char, charListLt x x = false := by
  intro x
  induction x with
  | nil => rfl
  | cons c rest ih => simp [charListLt, lt_irrefl, ih]

theorem charListLt_trans : ∀ (x y z : List Char), charListLt x y = true →
    charListLt y z = true → charListLt x z = true := by
  intro x
  induction x with
  | nil =>
    intro y z hxy hyz
    cases y with
    | nil => exact hyz
    | cons b bs =>
      cases z with
      | nil => simp [charListLt] at hyz
      | cons c cs => rfl
  | cons a as ih =>
    intro y z hxy hyz
    cases y with
    | nil => simp [charListLt] at hxy
    | cons b bs =>
      cases z with
      | nil => simp [charListLt] at hyz
      | cons c cs =>
        rw [charListLt] at hxy hyz ⊢
        by_cases hab : a < b
        · by_cases hbc : b < c
          · rw [if_pos (lt_trans hab hbc)]
          · by_cases hcb : c < b
            · rw [if_neg hbc, if_pos hcb] at hyz
              exact absurd hyz (by simp)
            · have hbc' : b = c := le_antisymm (not_lt.mp hcb) (not_lt.mp hbc)
              rw [if_pos (hbc' ▸ hab)]
        · by_cases hba : b < a
          · rw [if_neg hab, if_pos hba] at hxy
            exact absurd hxy (by simp)
          · have hab' : a = b := le_antisymm (not_lt.mp hba) (not_lt.mp hab)
            rw [if_neg hab, if_neg hba] at hxy
            by_cases hbc : b < c
            · rw [if_pos (hab' ▸ hbc)]
            · by_cases hcb : c < b
              · rw [if_neg hbc, if_pos hcb] at hyz
                exact absurd hyz (by simp)
              · rw [if_neg hbc, if_neg hcb] at hyz
                have hac : ¬a < c := by rw [hab']; exact hbc
                have hca : ¬c < a := by rw [hab']; exact hcb
                rw [if_neg hac, if_neg hca]
                exact ih bs cs hxy hyz

theorem strLt_irrefl (a : String) : strLt a a = false :=
  charListLt_irrefl a.data

theorem strLt_trans {a b c : String} (h1 : strLt a b = true) (h2 : strLt b c = true) :
    strLt a c = true :=
  charListLt_trans a.data b.data c.data h1 h2

theorem pyMax_eq_or (a b : String) : pyMax a b = a ∨ pyMax a b = b := by
  unfold pyMax
  split
  · exact Or.inr rfl
  · exact Or.inl rfl

theorem strLt_pyMax_right (a b : String) : strLt (pyMax a b) b = false := by
  unfold pyMax
  split
  · exact strLt_irrefl b
  · rename_i h
    simpa using h

theorem strLt_pyMax_left (a b : String) : strLt (pyMax a b) a = false := by
  unfold pyMax
  split
  · rename_i h
    by_contra hba
    rw [Bool.not_eq_false] at hba
    have h2 := strLt_trans h hba
    rw [strLt_irrefl] at h2
    exact absurd h2 (by simp)
  · exact strLt_irrefl a

theorem strLt_pyMax_mono {a x : String} (h : strLt a x = false) (b : String) :
    strLt (pyMax a b) x = false := by
  unfold pyMax
  split
  · rename_i hab
    by_contra hbx
    rw [Bool.not_eq_false] at hbx
    have h2 := strLt_trans hab hbx
    rw [h] at h2
    exact absurd h2 (by simp)
  · exact h

theorem foldl_pyMax_mem : ∀ (l : List String) (acc : String),
    l.foldl pyMax acc = acc ∨ l.foldl pyMax acc ∈ l := by
  intro l
  induction l with
  | nil => intro acc; exact Or.inl rfl
  | cons r rs ih =>
    intro acc
    rw [List.foldl_cons]
    rcases ih (pyMax acc r) with h | h
    · rcases pyMax_eq_or acc r with h2 | h2
      · exact Or.inl (h.trans h2)
      · exact Or.inr (by rw [h, h2]; exact List.mem_cons_self _ _)
    · exact Or.inr (List.mem_cons_of_mem _ h)

theorem foldl_pyMax_pres : ∀ (l : List String) (acc x : String),
    strLt acc x = false → strLt (l.foldl pyMax acc) x = false := by
  intro l
  induction l with
  | nil => intro acc x h; exact h
  | cons r rs ih =>
    intro acc x h
    rw [List.foldl_cons]
    exact ih _ x (strLt_pyMax_mono h r)

theorem foldl_pyMax_not_lt : ∀ (l : List String) (acc x : String),
    x = acc ∨ x ∈ l → strLt (l.foldl pyMax acc) x = false := by
  intro l
  induction l with
  | nil =>
    intro acc x hx
    rcases hx with rfl | hx
    · exact strLt_irrefl x
    · simp at hx
  | cons r rs ih =>
    intro acc x hx
    rw [List.foldl_cons]
    rcases hx with rfl | hx
    · exact foldl_pyMax_pres rs (pyMax x r) x (strLt_pyMax_left x r)
    · rcases List.mem_cons.mp hx with rfl | hx2
      · exact foldl_pyMax_pres rs (pyMax acc x) x (strLt_pyMax_right acc x)
      · exact ih (pyMax acc r) x (Or.inr hx2)

theorem dirExists_of_foundMonths_ne_nil {fs : FS} {d b : String}
    (h : foundMonths fs d b ≠ []) : fs.dirExists d = true := by
  unfold foundMonths at h
  cases hf : fs.files.filter
      (fun e => decide (e.1.1 = d) &&
        decide (strToLower (splitExt e.1.2).2 = ".csv")) with
  | nil => rw [hf] at h; simp at h
  | cons e rest =>
    have he : e ∈ fs.files.filter
        (fun e => decide (e.1.1 = d) &&
          decide (strToLower (splitExt e.1.2).2 = ".csv")) := by
      rw [hf]; exact List.mem_cons_self _ _
    have hmem := List.mem_filter.mp he
    have hd : decide (e.1.1 = d) = true := by
      have := hmem.2
      simp only [Bool.and_eq_true] at this
      exact this.1
    unfold FS.dirExists
    rw [Bool.or_eq_true]
    exact Or.inr (List.any_eq_true.mpr ⟨e, hmem.1, hd⟩)

/-! ## C3: the periodic-suffix deriver -/

/-- C3: whenever at least one `<base>_<label>.csv` file exists in the
destination, the derived label is the cycle successor (`get_next_month`) of
the lexicographically maximal label found; `get_next_month` is the cyclic
successor on the 12-month list, wrapping `Dec` to `Jan`; with no matching
file the deriver returns the hard-coded `"Sep"` fallback; and in the claim's
example (`BASE_Jun.csv` and `BASE_Aug.csv` present) `Jun` — not `Aug` — is
treated as latest and the result is `Jul`. -/
theorem C3_periodic_suffix_deriver :
    (∀ (fs : FS) (d b : String), foundMonths fs d b ≠ [] →
      ∃ latest, latest ∈ foundMonths fs d b
        ∧ (∀ x ∈ foundMonths fs d b, strLt latest x = false)
        ∧ nextLabel fs d b = get_next_month latest)
    ∧ (∀ i : Nat, i < 12 →
        get_next_month (MONTHS.getD i "") = MONTHS.getD ((i + 1) % 12) "")
    ∧ (∀ (fs : FS) (d b : String), foundMonths fs d b = [] → nextLabel fs d b = "Sep")
    ∧ (∀ (d c1 c2 : String) (ds : List String),
        nextLabel ⟨[((d, "BASE_Jun.csv"), c1), ((d, "BASE_Aug.csv"), c2)], ds⟩ d "BASE"
          = "Jul") := by
  refine ⟨?_, ?_, ?_, ?_⟩
  · intro fs d b h
    cases hfm : foundMonths fs d b with
    | nil => exact absurd hfm h
    | cons m rest =>
      refine ⟨rest.foldl pyMax m, ?_, ?_, ?_⟩
      · rcases foldl_pyMax_mem rest m with h2 | h2
        · rw [h2]; exact List.mem_cons_self _ _
        · exact List.mem_cons_of_mem _ h2
      · intro x hx
        exact foldl_pyMax_not_lt rest m x (List.mem_cons.mp hx)
      · have hde := dirExists_of_foundMonths_ne_nil h
        unfold nextLabel find_latest_month_in_destination
        rw [if_pos hde, hfm]
  · decide
  · intro fs d b h
    by_cases hde : fs.dirExists d = true
    · unfold nextLabel find_latest_month_in_destination
      rw [if_pos hde, h]
    · unfold nextLabel find_latest_month_in_destination
      rw [if_neg hde]
  · intro d c1 c2 ds
    simp [nextLabel, find_latest_month_in_destination, foundMonths, FS.dirExists,
      get_next_month, strToLower, splitExt, rsplitDot, pyMax, strLt, charListLt, MONTHS]

/-- Witness for C3 at a concrete input (the hypotheses of the first and third
conjunct discharged on concrete directories). -/
theorem C3_witness :
    (∃ latest,
        latest ∈ foundMonths ⟨[(("d", "BASE_Dec.csv"), "x")], []⟩ "d" "BASE"
        ∧ (∀ x ∈ foundMonths ⟨[(("d", "BASE_Dec.csv"), "x")], []⟩ "d" "BASE",
            strLt latest x = false)
        ∧ nextLabel ⟨[(("d", "BASE_Dec.csv"), "x")], []⟩ "d" "BASE"
            = get_next_month latest)
    ∧ get_next_month (MONTHS.getD 11 "") = MONTHS.getD 0 ""
    ∧ nextLabel ⟨[], ["d"]⟩ "d" "BASE" = "Sep" :=
  ⟨C3_periodic_suffix_deriver.1 ⟨[(("d", "BASE_Dec.csv"), "x")], []⟩ "d" "BASE"
      (by decide),
    C3_periodic_suffix_deriver.2.1 11 (by decide),
    C3_periodic_suffix_deriver.2.2.1 ⟨[], ["d"]⟩ "d" "BASE" (by decide)⟩

/-! ## C10: case sensitivity of the directory scan -/

/-- C10: the periodic-suffix scan is fully case-sensitive: `BASE_Jun.CSV`
(upper-case extension) and `BASE_jun.csv` (lower-case label) are ignored and
derive no label (the fallback applies), while the exactly-cased
`BASE_Jun.csv` is counted; at the same time the inner-member selection of the
extractor accepts `.CSV` case-insensitively. -/
theorem C10_scan_case_sensitivity (d c1 c2 : String) (ds : List String) :
    find_latest_month_in_destination
        ⟨[((d, "BASE_Jun.CSV"), c1), ((d, "BASE_jun.csv"), c2)], ds⟩ d "BASE" = none
    ∧ nextLabel ⟨[((d, "BASE_Jun.CSV"), c1), ((d, "BASE_jun.csv"), c2)], ds⟩ d "BASE"
        = "Sep"
    ∧ find_latest_month_in_destination ⟨[((d, "BASE_Jun.csv"), c1)], ds⟩ d "BASE"
        = some "Jun"
    ∧ member_selected "data.CSV" = true := by
  refine ⟨?_, ?_, ?_, by decide⟩ <;>
    simp [nextLabel, find_latest_month_in_destination, foundMonths, FS.dirExists,
      strToLower, splitExt, rsplitDot, pyMax, strLt, charListLt, MONTHS]

/-! ## C8: mapping validation -/

theorem validate_rows_all_good : ∀ (k : Nat) (rows : List Row),
    (∀ r ∈ rows, rowGood r = true) →
    validate_rows k rows = .ok (rows.map cleanRow) := by
  intro k rows
  induction rows generalizing k with
  | nil => intro _; rfl
  | cons r rest ih =>
    intro h
    have hr := h r (List.mem_cons_self _ _)
    cases r with
    | nonDict => simp [rowGood] at hr
    | dict p d =>
      cases p with
      | none => simp [rowGood] at hr
      | some ps =>
        cases d with
        | none => simp [rowGood] at hr
        | some ds =>
          simp only [rowGood, Bool.and_eq_true, Bool.not_eq_true',
            decide_eq_false_iff_not] at hr
          rw [validate_rows]
          rw [if_neg (by simpa using (not_or.mpr hr))]
          rw [ih (k + 1) (fun x hx => h x (List.mem_cons_of_mem _ hx))]
          rfl

theorem validate_rows_first_bad : ∀ (rows : List Row) (k i : Nat),
    i < rows.length →
    rowGood (rows.getD i .nonDict) = false →
    (∀ j, j < i → rowGood (rows.getD j .nonDict) = true) →
    validate_rows k rows = .error (rowErr (k + i) (rows.getD i .nonDict)) := by
  intro rows
  induction rows with
  | nil => intro k i hlen; simp at hlen
  | cons r rest ih =>
    intro k i hlen hbad hgood
    cases i with
    | zero =>
      simp only [List.getD_cons_zero] at hbad ⊢
      cases r with
      | nonDict => rfl
      | dict p d =>
        cases p with
        | none => rfl
        | some ps =>
          cases d with
          | none => rfl
          | some ds =>
            simp only [rowGood] at hbad
            have hor : pyStrip ps = "" ∨ pyStrip ds = "" := by
              by_contra hno
              rw [not_or] at hno
              have hcontra : (!decide (pyStrip ps = "")
                  && !decide (pyStrip ds = "")) = true := by
                simp [hno.1, hno.2]
              rw [hbad] at hcontra
              exact absurd hcontra (by simp)
            rw [validate_rows, if_pos hor]
            rfl
    | succ i' =>
      have hr := hgood 0 (Nat.succ_pos i')
      simp only [List.getD_cons_zero] at hr
      simp only [List.getD_cons_succ] at hbad ⊢
      cases r with
      | nonDict => simp [rowGood] at hr
      | dict p d =>
        cases p with
        | none => simp [rowGood] at hr
        | some ps =>
          cases d with
          | none => simp [rowGood] at hr
          | some ds =>
            simp only [rowGood, Bool.and_eq_true, Bool.not_eq_true',
              decide_eq_false_iff_not] at hr
            rw [validate_rows]
            rw [if_neg (by simpa using (not_or.mpr hr))]
            rw [ih (k + 1) i' (by simpa using hlen) hbad
              (fun j hj => by
                have := hgood (j + 1) (by omega)
                simpa using this)]
            have harith : k + 1 + i' = k + (i' + 1) := by omega
            rw [harith]

/-- C8: a parsed mapping list validates entry by entry: if every entry is a
dict with non-empty (after stripping) `pattern` and `dest`, loading yields
exactly the ordered cleaned rule list; otherwise loading fails with an error
naming the first offending index (distinguishing a malformed entry from an
empty field); the JSON-like and YAML-like encodings of the same parsed list
load identically; and an invalid mapping makes the run exit with code 2
before touching the filesystem or producing outcomes. -/
theorem C8_load_mapping_validation :
    (∀ rows : List Row, (∀ r ∈ rows, rowGood r = true) →
      validate_rows 0 rows = .ok (rows.map cleanRow))
    ∧ (∀ (rows : List Row) (i : Nat), i < rows.length →
        rowGood (rows.getD i .nonDict) = false →
        (∀ j, j < i → rowGood (rows.getD j .nonDict) = true) →
        validate_rows 0 rows = .error (rowErr i (rows.getD i .nonDict)))
    ∧ (∀ (ex yA : Bool) (doc : ParsedDoc),
        load_mapping ex ".json" yA doc = load_mapping ex ".yaml" true doc)
    ∧ (∀ (e : MapErr) (zips : List ZipFile) (dd : Option String) (w oc : String)
        (dry : Bool) (fs : FS),
        main_model true (.error e) zips dd w oc dry fs = (2, fs, [])) := by
  refine ⟨?_, ?_, ?_, ?_⟩
  · intro rows h
    exact validate_rows_all_good 0 rows h
  · intro rows i hlen hbad hgood
    have := validate_rows_first_bad rows 0 i hlen hbad hgood
    simpa using this
  · intro ex yA doc
    have hj : strToLower ".json" = ".json" := by decide
    have hy : strToLower ".yaml" = ".yaml" := by decide
    have hjy : strToLower ".yaml" = ".json" → False := by decide
    have hyml : strToLower ".yaml" = ".yml" → False := by decide
    cases ex with
    | false => simp [load_mapping]
    | true => cases doc <;> simp [load_mapping, hj, hy]
  · intro e zips dd w oc dry fs
    simp [main_model]

/-- Witness for C8 at concrete inputs. -/
theorem C8_witness :
    validate_rows 0 [Row.dict (some " a ") (some "b")]
      = .ok [{ pattern := pyStrip " a ", dest := pyStrip "b" }]
    ∧ validate_rows 0 [Row.dict (some "a") (some "b"), Row.nonDict]
      = .error (.invalidEntry 1)
    ∧ load_mapping true ".json" false (.list [Row.dict (some "a") (some "b")])
      = load_mapping true ".yaml" true (.list [Row.dict (some "a") (some "b")])
    ∧ main_model true (.error .notAList) [] none "w" "rename" false ⟨[], []⟩
      = (2, ⟨[], []⟩, []) :=
  ⟨C8_load_mapping_validation.1 [Row.dict (some " a ") (some "b")] (by decide),
    C8_load_mapping_validation.2.1 [Row.dict (some "a") (some "b"), Row.nonDict] 1
      (by decide) (by decide) (by decide),
    C8_load_mapping_validation.2.2.1 true false (.list [Row.dict (some "a") (some "b")]),
    C8_load_mapping_validation.2.2.2 .notAList [] none "w" "rename" false ⟨[], []⟩⟩

/-! ## C9: process exit codes -/

/-- C9: the exit code of a run is 2 exactly when the source directory is
missing or the mapping failed to load, and 0 otherwise — in particular 0
with zero archives found and 0 regardless of any per-archive failures. -/
theorem C9_exit_codes (src_exists : Bool) (mres : Except MapErr (List Rule))
    (zips : List ZipFile) (dd : Option String) (w oc : String) (dry : Bool)
    (fs : FS) :
    (main_model src_exists mres zips dd w oc dry fs).1 =
      (if src_exists = false then 2
       else match mres with
       | .error _ => 2
       | .ok _ => 0) := by
  by_cases hs : src_exists = false
  · simp [main_model, hs]
  · cases mres with
    | error e => simp [main_model, hs]
    | ok mapping =>
      by_cases hz : zips.isEmpty <;> simp [main_model, hs, hz]

/-! ## C5: dry-run mode -/

theorem processMember_dry (fs : FS) (zid : FPath) (zstem member content : String)
    (mapping : List Rule) (dd : Option String) (w oc : String) :
    processMember fs zid zstem member content mapping dd w oc true
      = (fs, .ok (memberIntended fs zid mapping dd member)) := by
  unfold processMember memberIntended
  by_cases he : (resolve_destinations (pathName member) mapping dd).isEmpty = true
  · simp [he]
  · simp [he]

theorem memberLoop_dry (zid : FPath) (zstem : String) (mapping : List Rule)
    (dd : Option String) (w oc : String) :
    ∀ (ms : List (String × String)) (fs : FS),
      memberLoop zid zstem mapping dd w oc true fs ms
        = (fs, .ok (ms.flatMap (fun m => memberIntended fs zid mapping dd m.1))) := by
  intro ms
  induction ms with
  | nil => intro fs; rfl
  | cons m rest ih =>
    intro fs
    rw [memberLoop]
    simp only [processMember_dry, ih fs, List.flatMap_cons]

theorem extract_dry_fs (fs : FS) (z : ZipFile) (mapping : List Rule)
    (dd : Option String) (w oc : String) :
    (extract_and_route_zip fs z mapping dd w oc true).1 = fs := by
  simp only [extract_and_route_zip]
  by_cases hv : z.valid = false
  · rw [if_pos hv]
  · rw [if_neg hv]
    by_cases hm : ((z.members.filter (fun m => member_selected m.1)).isEmpty) = true
    · rw [if_pos hm]
    · rw [if_neg hm, memberLoop_dry]

theorem extract_dry_outcomes (fs : FS) (z : ZipFile) (mapping : List Rule)
    (dd : Option String) (w oc : String) (hv : z.valid = true) :
    (extract_and_route_zip fs z mapping dd w oc true).2
      = .ok (intendedOutcomes fs z mapping dd) := by
  simp only [extract_and_route_zip, intendedOutcomes]
  rw [if_neg (by simp [hv])]
  by_cases hm : ((z.members.filter (fun m => member_selected m.1)).isEmpty) = true
  · rw [if_pos hm]
    have hnil : z.members.filter (fun m => member_selected m.1) = [] :=
      List.isEmpty_iff.mp hm
    rw [hnil]
    rfl
  · rw [if_neg hm, memberLoop_dry]

theorem foldl_main_step_dry_fst (mapping : List Rule) (dd : Option String)
    (w oc : String) :
    ∀ (zips : List ZipFile) (st : FS × List Outcome),
      (zips.foldl (main_step mapping dd w oc true) st).1 = st.1 := by
  intro zips
  induction zips with
  | nil => intro st; rfl
  | cons z rest ih =>
    intro st
    rw [List.foldl_cons, ih]
    simp only [main_step]
    cases hr : (extract_and_route_zip st.1 z mapping dd w oc true).2 with
    | ok outs => exact extract_dry_fs st.1 z mapping dd w oc
    | error e => exact extract_dry_fs st.1 z mapping dd w oc

/-- C5 counterexample: in dry-run mode the program still creates the working
directory (`args.work_dir.mkdir(...)` runs before the dry-run check), so a
dry run on one archive mutates the filesystem: a directory is created. -/
theorem C5_counterexample :
    (main_model true (.ok []) [⟨"s", "a.csv.zip", true, [("m.csv", "x")]⟩] none "w"
        "rename" true ⟨[], []⟩).2.1 ≠ (⟨[], []⟩ : FS)
    ∧ (main_model true (.ok []) [⟨"s", "a.csv.zip", true, [("m.csv", "x")]⟩] none "w"
        "rename" true ⟨[], []⟩).2.1.dirs = ["w"] := by
  decide

/-- C5 amended: in dry-run mode `extract_and_route_zip` performs no
filesystem mutation at all and (for a readable archive) returns exactly the
outcomes computed by the shared resolution-and-naming pipeline
(`intendedOutcomes`); at run level the file set is never touched and the only
possible mutation is the unconditional creation of the working directory. -/
theorem C5_amended_dry_run :
    (∀ (fs : FS) (z : ZipFile) (mapping : List Rule) (dd : Option String)
        (w oc : String),
      (extract_and_route_zip fs z mapping dd w oc true).1 = fs)
    ∧ (∀ (fs : FS) (z : ZipFile) (mapping : List Rule) (dd : Option String)
        (w oc : String), z.valid = true →
      (extract_and_route_zip fs z mapping dd w oc true).2
        = .ok (intendedOutcomes fs z mapping dd))
    ∧ (∀ (src : Bool) (mres : Except MapErr (List Rule)) (zips : List ZipFile)
        (dd : Option String) (w oc : String) (fs : FS),
      (main_model src mres zips dd w oc true fs).2.1.files = fs.files)
    ∧ (∀ (src : Bool) (mres : Except MapErr (List Rule)) (zips : List ZipFile)
        (dd : Option String) (w oc : String) (fs : FS),
      (main_model src mres zips dd w oc true fs).2.1 = fs
        ∨ (main_model src mres zips dd w oc true fs).2.1 = fs.mkdir w) := by
  have hmain : ∀ (src : Bool) (mres : Except MapErr (List Rule))
      (zips : List ZipFile) (dd : Option String) (w oc : String) (fs : FS),
      (main_model src mres zips dd w oc true fs).2.1 = fs
        ∨ (main_model src mres zips dd w oc true fs).2.1 = fs.mkdir w := by
    intro src mres zips dd w oc fs
    by_cases hs : src = false
    · left; simp [main_model, hs]
    · cases mres with
      | error e => left; simp [main_model, hs]
      | ok mapping =>
        by_cases hz : zips.isEmpty = true
        · left; simp [main_model, hs, hz]
        · right
          simp only [main_model]
          rw [if_neg hs, if_neg hz, if_pos trivial]
          exact foldl_main_step_dry_fst mapping dd w oc zips (fs.mkdir w, [])
  refine ⟨extract_dry_fs, fun fs z mapping dd w oc hv =>
    extract_dry_outcomes fs z mapping dd w oc hv, ?_, hmain⟩
  intro src mres zips dd w oc fs
  rcases hmain src mres zips dd w oc fs with h | h <;> rw [h]
  rfl

/-- Witness for C5 (the `z.valid = true` hypothesis discharged at a concrete
archive). -/
theorem C5_witness :
    (extract_and_route_zip ⟨[], []⟩ ⟨"s", "a.csv.zip", true, [("m.csv", "x")]⟩
        [] none "w" "rename" true).2
      = .ok (intendedOutcomes ⟨[], []⟩ ⟨"s", "a.csv.zip", true, [("m.csv", "x")]⟩
          [] none) :=
  C5_amended_dry_run.2.1 ⟨[], []⟩ ⟨"s", "a.csv.zip", true, [("m.csv", "x")]⟩
    [] none "w" "rename" rfl

end CsvZipRouter
